import Mathlib

/-!
Verification of the AI newsletter generator (src/app.py) against its
specification.  The Python source is shallowly embedded below:

* The chain-of-thought text filter in remove_think_content (app.py
  lines 153-167) applies re.sub with the non-greedy pattern
  <think>[\s\S]*?</think> and, if either tag still occurs in the result,
  re-applies re.sub with <think>.*?</think> under DOTALL, which denotes the
  same language.  Both passes are embedded as pass1, a fuel-indexed
  left-to-right shortest-span remover that mirrors re.sub semantics:
  repeatedly find the leftmost occurrence of the start tag, the first end
  tag beginning at or after the end of that start tag, delete the whole
  span, and continue scanning after the deleted span.
* The LLM chain invocations (chain.run) are embedded as an oracle
  run : String -> RunResult supplied by the caller; the generation,
  enhancement and refinement wrappers (app.py lines 85-122) catch the
  exception case and are embedded returning their result together with the
  list of error messages shown via st.error.
* The Generate Newsletter click handler (app.py lines 226-231) is
  generateNewsletterClick; datetime.now() in create_markdown (lines
  143-151) is passed in as an explicit date string.
* fetch_news_articles (lines 124-134) records the requested URL so that
  properties about when a network call happens are expressible; a missing
  NEWS_API_KEY is embedded as Option.none and rendered as the literal
  string None exactly as a Python f-string renders it.
* Counter(sources).most_common(3) in get_top_news_orgs (lines 136-141) is
  embedded as counts in first-occurrence order followed by a stable
  insertion sort by descending count.
-/

/-- Characters of the start tag literal from the regex in app.py line 159. -/
def tOpen : List Char := "<think>".data

/-- Characters of the end tag literal from the regex in app.py line 159. -/
def tClose : List Char := "</think>".data

/-- Whether pat occurs at the very beginning of s. -/
def startsWithL : List Char → List Char → Bool
  | [], _ => true
  | _ :: _, [] => false
  | p :: ps, c :: cs => p == c && startsWithL ps cs

/-- Index of the first occurrence of pat in s, if any. -/
def findSub? (pat : List Char) : List Char → Option Nat
  | [] => if startsWithL pat [] then some 0 else none
  | c :: cs =>
    if startsWithL pat (c :: cs) then some 0
    else (findSub? pat cs).map Nat.succ

/-- Index of the last occurrence of pat in s, if any. -/
def lastSub? (pat : List Char) : List Char → Option Nat
  | [] => if startsWithL pat [] then some 0 else none
  | c :: cs =>
    match lastSub? pat cs with
    | some j => some (j + 1)
    | none => if startsWithL pat (c :: cs) then some 0 else none

/-- Python's in operator on strings, as used in app.py line 163. -/
def containsSub (pat s : List Char) : Bool := (findSub? pat s).isSome

/-- One leftmost match of the non-greedy regex of app.py line 159: the
first start tag together with the first end tag beginning after it.
Returns the start index and the index just past the end tag. -/
def findMatch? (s : List Char) : Option (Nat × Nat) :=
  (findSub? tOpen s).bind fun i =>
    (findSub? tClose (s.drop (i + tOpen.length))).map fun k =>
      (i, i + tOpen.length + k + tClose.length)

/-- Fuel-indexed removal of every match, scanning left to right and
continuing after each deleted span, exactly as re.sub does. -/
def pass1Fuel : Nat → List Char → List Char
  | 0, s => s
  | fuel + 1, s =>
    match findMatch? s with
    | none => s
    | some (i, e) => s.take i ++ pass1Fuel fuel (s.drop e)

/-- One full re.sub pass with the non-greedy think-tag pattern.  Each match
consumes at least one character, so the length of the input is enough fuel. -/
def pass1 (s : List Char) : List Char := pass1Fuel s.length s

/-- Embedding of remove_think_content (app.py lines 153-167) at the level
of character lists: a primary pass, then, when either tag still occurs in
cleaned_text, a second pass with a regex denoting the same language. -/
def stripL (s : List Char) : List Char :=
  if containsSub tOpen (pass1 s) || containsSub tClose (pass1 s) then pass1 (pass1 s)
  else pass1 s

/-- Embedding of remove_think_content (app.py lines 153-167). -/
def remove_think_content (text : String) : String := String.mk (stripL text.data)

/-- Whether the text contains a start tag followed (anywhere later) by an
end tag, i.e. an occurrence of the marker pair. -/
def containsPairStr (s : String) : Bool := (findMatch? s.data).isSome

/-- Embedding of create_markdown (app.py lines 143-151); the value of
datetime.now().strftime is passed in as dateStr. -/
def create_markdown (dateStr : String) (content : String) : String :=
  let cleaned_content := remove_think_content content
  "# AI & Data Analytics Newsletter\n\n" ++ "**Generated on " ++ dateStr ++ "**\n\n"
    ++ cleaned_content

theorem startsWithL_length {p s : List Char} (h : startsWithL p s = true) :
    p.length ≤ s.length := by
  induction p generalizing s with
  | nil => exact Nat.zero_le _
  | cons a as ih =>
    cases s with
    | nil => simp [startsWithL] at h
    | cons c cs =>
      simp only [startsWithL, Bool.and_eq_true] at h
      simpa [List.length_cons, Nat.succ_le_succ_iff] using ih h.2

theorem findSub?_sound {pat s : List Char} {i : Nat} (h : findSub? pat s = some i) :
    startsWithL pat (s.drop i) = true := by
  induction s generalizing i with
  | nil =>
    simp only [findSub?] at h
    by_cases hs : startsWithL pat [] = true
    · simp [hs] at h
      simpa [← h] using hs
    · simp [hs] at h
  | cons c cs ih =>
    simp only [findSub?] at h
    by_cases hs : startsWithL pat (c :: cs) = true
    · simp [hs] at h
      simpa [← h] using hs
    · simp [hs, Option.map_eq_some'] at h
      obtain ⟨j, hj, rfl⟩ := h
      simpa [List.drop_succ_cons] using ih hj

theorem containsSub_eq_false_iff {pat s : List Char} :
    containsSub pat s = false ↔ findSub? pat s = none := by
  unfold containsSub
  cases findSub? pat s <;> simp

theorem containsSub_cons (pat : List Char) (c : Char) (cs : List Char) :
    containsSub pat (c :: cs) = (startsWithL pat (c :: cs) || containsSub pat cs) := by
  unfold containsSub
  simp only [findSub?]
  by_cases hs : startsWithL pat (c :: cs) = true
  · simp [hs]
  · simp only [Bool.not_eq_true] at hs
    cases hf : findSub? pat cs <;> simp [hs, hf]

theorem containsSub_drop {pat s : List Char} (k : Nat)
    (h : containsSub pat s = false) : containsSub pat (s.drop k) = false := by
  induction k generalizing s with
  | zero => simpa using h
  | succ n ih =>
    cases s with
    | nil => simpa using h
    | cons c cs =>
      rw [containsSub_cons, Bool.or_eq_false_iff] at h
      simpa [List.drop_succ_cons] using ih h.2

theorem findMatch?_none_of_no_open {s : List Char}
    (h : containsSub tOpen s = false) : findMatch? s = none := by
  unfold findMatch?
  rw [containsSub_eq_false_iff.mp h]
  rfl

theorem findMatch?_none_of_no_close {s : List Char}
    (h : containsSub tClose s = false) : findMatch? s = none := by
  unfold findMatch?
  cases ho : findSub? tOpen s with
  | none => rfl
  | some i =>
    simp [containsSub_eq_false_iff.mp (containsSub_drop (i + tOpen.length) h)]

theorem findMatch?_bound {s : List Char} {i e : Nat}
    (h : findMatch? s = some (i, e)) : 1 ≤ e ∧ e ≤ s.length := by
  unfold findMatch? at h
  rw [Option.bind_eq_some] at h
  obtain ⟨i0, ho, hmap⟩ := h
  rw [Option.map_eq_some'] at hmap
  obtain ⟨k, hc, heq⟩ := hmap
  injection heq with hi he
  have h1 : tOpen.length ≤ (s.drop i0).length := startsWithL_length (findSub?_sound ho)
  have h2 : tClose.length ≤ ((s.drop (i0 + tOpen.length)).drop k).length :=
    startsWithL_length (findSub?_sound hc)
  have hOL : tOpen.length = 7 := rfl
  have hCL : tClose.length = 8 := rfl
  rw [List.length_drop] at h1
  rw [List.length_drop, List.length_drop] at h2
  rw [hOL] at h1 h2 he
  rw [hCL] at h2 he
  omega

theorem pass1Fuel_of_none {s : List Char} (f : Nat) (h : findMatch? s = none) :
    pass1Fuel f s = s := by
  cases f with
  | zero => rfl
  | succ n => simp [pass1Fuel, h]

theorem pass1Fuel_congr :
    ∀ (f : Nat) (g : Nat) (s : List Char), s.length ≤ f → s.length ≤ g →
      pass1Fuel f s = pass1Fuel g s := by
  intro f
  induction f with
  | zero =>
    intro g s hf _
    have : s = [] := List.length_eq_zero.mp (Nat.le_zero.mp hf)
    subst this
    cases g with
    | zero => rfl
    | succ m => simp [pass1Fuel, findMatch?, findSub?, startsWithL, tOpen]
  | succ n ih =>
    intro g s hf hg
    cases g with
    | zero =>
      have : s = [] := List.length_eq_zero.mp (Nat.le_zero.mp hg)
      subst this
      simp [pass1Fuel, findMatch?, findSub?, startsWithL, tOpen]
    | succ m =>
      simp only [pass1Fuel]
      cases hm : findMatch? s with
      | none => rfl
      | some ie =>
        obtain ⟨i, e⟩ := ie
        have hb := findMatch?_bound hm
        have hlen : (s.drop e).length ≤ n := by
          rw [List.length_drop]; omega
        have hlen' : (s.drop e).length ≤ m := by
          rw [List.length_drop]; omega
        show s.take i ++ pass1Fuel n (s.drop e) = s.take i ++ pass1Fuel m (s.drop e)
        rw [ih m (s.drop e) hlen hlen']

theorem pass1_of_findMatch?_none {s : List Char} (h : findMatch? s = none) :
    pass1 s = s := pass1Fuel_of_none _ h

theorem pass1_of_no_open {s : List Char} (h : containsSub tOpen s = false) :
    pass1 s = s := pass1_of_findMatch?_none (findMatch?_none_of_no_open h)

theorem pass1_of_no_close {s : List Char} (h : containsSub tClose s = false) :
    pass1 s = s := pass1_of_findMatch?_none (findMatch?_none_of_no_close h)

theorem string_mk_data (s : String) : String.mk s.data = s := rfl

theorem stripL_of_pass1_id {s : List Char} (hp : pass1 s = s) : stripL s = s := by
  simp only [stripL, hp, ite_self]

/-- An input on which the filter is not idempotent: every think tag of the
payload is broken into two halves with a removable block between them, two
levels deep, so each pass of the filter reassembles one more level of tags. -/
def xBad : String :=
  "<thi" ++ "<thi<think></think>nk>" ++ "</thi<think></think>nk>" ++ "nk></thi"
    ++ "<thi<think></think>nk>" ++ "</thi<think></think>nk>" ++ "nk>"

/-- C1: the filter is idempotent on every input whose filtered form no
longer contains a start tag, or no longer contains an end tag.  (On general
input idempotence fails; see the counterexample.) -/
theorem strip_idempotent_on_marker_free (x : String)
    (h : containsSub tOpen (remove_think_content x).data = false ∨
      containsSub tClose (remove_think_content x).data = false) :
    remove_think_content (remove_think_content x) = remove_think_content x := by
  have hp : pass1 (remove_think_content x).data = (remove_think_content x).data :=
    h.elim pass1_of_no_open pass1_of_no_close
  show String.mk (stripL (remove_think_content x).data) = remove_think_content x
  rw [stripL_of_pass1_id hp, string_mk_data]

set_option maxRecDepth 100000 in
theorem strip_idempotent_witness :
    remove_think_content (remove_think_content "a<think>b</think>c") =
      remove_think_content "a<think>b</think>c" :=
  strip_idempotent_on_marker_free "a<think>b</think>c" (Or.inl (by decide))

set_option maxRecDepth 400000 in
/-- C1 counterexample: the two passes of the filter reassemble one level of
broken tags each, so filtering xBad yields a pure tag pair, which a further
filtering round deletes: strip (strip xBad) differs from strip xBad. -/
theorem strip_not_idempotent_cex :
    remove_think_content xBad = "<think></think>" ∧
    remove_think_content (remove_think_content xBad) = "" ∧
    remove_think_content (remove_think_content xBad) ≠ remove_think_content xBad := by
  decide

/-- Modelled from the spec: the claimed greedier fallback pass, which would
treat the first start marker and the last end marker of the remaining text
as delimiting one content span and remove everything between and including
them.  The source has no such pass; this definition exists to compare the
spec's description with the code's behaviour. -/
def strip_greedySpec (s : List Char) : List Char :=
  if containsSub tOpen (pass1 s) || containsSub tClose (pass1 s) then
    match findSub? tOpen (pass1 s), lastSub? tClose (pass1 s) with
    | some i, some j => (pass1 s).take i ++ (pass1 s).drop (j + tClose.length)
    | _, _ => pass1 s
  else pass1 s

/-- An input whose primary pass leaves a lone end tag together with a
reassembled full pair, separating the greedy and non-greedy fallbacks. -/
def xFive : String := "<thi<think></think>nk>A</think>K</think>"

set_option maxRecDepth 100000 in
/-- C5 counterexample: on xFive the primary pass leaves
"<think>A</think>K</think>" (lone trailing end tag, so the fallback fires),
and the code's fallback removes only the shortest span, keeping
"K</think>", whereas the spec's first-start-to-last-end removal would
delete everything. -/
theorem second_pass_not_greedy_cex :
    (containsSub tOpen (pass1 xFive.data) || containsSub tClose (pass1 xFive.data)) = true ∧
    remove_think_content xFive = "K</think>" ∧
    String.mk (strip_greedySpec xFive.data) = "" ∧
    remove_think_content xFive ≠ String.mk (strip_greedySpec xFive.data) := by
  decide

/-- C5 amended: whenever the primary pass leaves a start tag or an end tag
in its result, the second pass the code applies is the same non-greedy
left-to-right shortest-span removal again (which can delete tag pairs newly
formed by the first pass's deletions), not a greedy removal from the first
start marker to the last end marker. -/
theorem second_pass_is_shortest_span (x : String)
    (h : (containsSub tOpen (pass1 x.data) || containsSub tClose (pass1 x.data)) = true) :
    remove_think_content x = String.mk (pass1 (pass1 x.data)) := by
  show String.mk (stripL x.data) = _
  simp only [stripL, h, if_true]

set_option maxRecDepth 100000 in
theorem second_pass_witness :
    remove_think_content xFive = String.mk (pass1 (pass1 xFive.data)) :=
  second_pass_is_shortest_span xFive (by decide)

set_option maxRecDepth 100000 in
/-- C6: the filter removes non-greedily matched tag spans left to right:
it maps "a<think>b</think>c" to "ac" and
"a<think>b</think>c<think>d</think>e" to "ace", and returns every input
containing neither tag unchanged. -/
theorem strip_shortest_span_examples :
    remove_think_content "a<think>b</think>c" = "ac" ∧
    remove_think_content "a<think>b</think>c<think>d</think>e" = "ace" ∧
    ∀ x : String, containsSub tOpen x.data = false → containsSub tClose x.data = false →
      remove_think_content x = x := by
  refine ⟨by decide, by decide, ?_⟩
  intro x hO _
  have hp : pass1 x.data = x.data := pass1_of_no_open hO
  show String.mk (stripL x.data) = x
  rw [stripL_of_pass1_id hp, string_mk_data]

theorem strip_shortest_span_witness :
    remove_think_content "no markers here" = "no markers here" :=
  strip_shortest_span_examples.2.2 "no markers here" (by decide) (by decide)

set_option maxRecDepth 100000 in
/-- C10: on the nested-marker input "<think>a<think>b</think>c</think>"
the filter returns "c</think>", a lone end tag; and in general the
fallback pass changes nothing unless both a start tag and an end tag
remain after the primary pass. -/
theorem strip_nested_markers :
    remove_think_content "<think>a<think>b</think>c</think>" = "c</think>" ∧
    ∀ x : String,
      (containsSub tOpen (pass1 x.data) = false ∨ containsSub tClose (pass1 x.data) = false) →
      remove_think_content x = String.mk (pass1 x.data) := by
  refine ⟨by decide, ?_⟩
  intro x h
  have hp : pass1 (pass1 x.data) = pass1 x.data := h.elim pass1_of_no_open pass1_of_no_close
  show String.mk (stripL x.data) = _
  unfold stripL
  cases hb : (containsSub tOpen (pass1 x.data) || containsSub tClose (pass1 x.data)) with
  | false => simp [hb]
  | true => simp [hb, hp]

set_option maxRecDepth 100000 in
theorem strip_nested_witness :
    remove_think_content "<think>a</think>" = String.mk (pass1 "<think>a</think>".data) :=
  strip_nested_markers.2 "<think>a</think>" (Or.inl (by decide))

/-- Outcome of one chain.run invocation: the generated text, or the message
of the exception it raised. -/
inductive RunResult where
  | ok (text : String)
  | exn (msg : String)

/-- The draft prompt (app.py lines 33-45) with user_input substituted, as
ChatPromptTemplate/LLMChain.run produce it. -/
def NEWSLETTER_TEMPLATE (user_input : String) : String :=
  "\nWrite a professional AI and Data Analytics newsletter with the following topic:\n"
    ++ user_input
    ++ "\n\nFormat it with:\n1. Headline\n2. Introduction\n3. Main content with subsections\n4. Key takeaways\n\nWrite in a clear, professional style. Provide the newsletter content directly without any meta-commentary.\nIf you need to think through your process, wrap that text in <think> tags.\n"

/-- The refinement prompt (app.py lines 47-56) with both variables
substituted. -/
def REFINEMENT_TEMPLATE (current_content refinement_instructions : String) : String :=
  "\nHere is a newsletter section:\n" ++ current_content
    ++ "\n\nRevise it according to these instructions:\n" ++ refinement_instructions
    ++ "\n\nProvide only the revised content without any explanations.\nIf you need to think through your process, wrap that text in <think> tags.\n"

/-- The enhancement prompt (app.py lines 59-67) with current_content
substituted. -/
def ENTERTAINMENT_TEMPLATE (current_content : String) : String :=
  "\nHere is a newsletter section:\n" ++ current_content
    ++ "\n\nRevise it to make it more entertaining and engaging for readers interested in AI and Data Analytics. Use a lively tone and add interesting anecdotes or examples where appropriate.\n\nProvide only the revised content without any explanations.\nIf you need to think through your process, wrap that text in <think> tags.\n"

/-- Embedding of generate_newsletter (app.py lines 85-95): on success the
raw chain output is returned; on exception an error is shown and the empty
string is returned.  The second component lists the st.error messages. -/
def generate_newsletter (run : String → RunResult) (user_input : String) :
    String × List String :=
  match run (NEWSLETTER_TEMPLATE user_input) with
  | RunResult.ok r => (r, [])
  | RunResult.exn e => ("", ["Error generating newsletter: " ++ e])

/-- Embedding of refine_newsletter (app.py lines 97-110): on exception the
current content is returned unchanged. -/
def refine_newsletter (run : String → RunResult)
    (current_content refinement_instructions : String) : String × List String :=
  match run (REFINEMENT_TEMPLATE current_content refinement_instructions) with
  | RunResult.ok r => (r, [])
  | RunResult.exn e => (current_content, ["Error refining newsletter: " ++ e])

/-- Embedding of enhance_newsletter (app.py lines 112-122): on exception the
current content is returned unchanged. -/
def enhance_newsletter (run : String → RunResult) (current_content : String) :
    String × List String :=
  match run (ENTERTAINMENT_TEMPLATE current_content) with
  | RunResult.ok r => (r, [])
  | RunResult.exn e => (current_content, ["Error enhancing newsletter: " ++ e])

/-- The piece of st.session_state the pipeline mutates. -/
structure SessionState where
  newsletter_content : String

/-- Embedding of the Generate Newsletter click handler (app.py lines
226-231): generate, then unconditionally enhance the generated text, and
store the enhancement result in session state.  The second component
collects the error messages shown during the operation. -/
def generateNewsletterClick (run : String → RunResult) (_stt : SessionState)
    (user_input : String) : SessionState × List String :=
  let gen := generate_newsletter run user_input
  let enh := enhance_newsletter run gen.1
  (⟨enh.1⟩, gen.2 ++ enh.2)

/-- An oracle whose every call succeeds with text containing a think pair. -/
def runOkThink : String → RunResult := fun _ => RunResult.ok "<think>p</think>B"

/-- C2 counterexample: with an oracle that always succeeds returning
"<think>p</think>B", the click handler reports no error, yet the draft
stored in session state contains the marker pair: nothing is filtered
before storage (the filter runs only at export). -/
theorem generate_success_pair_cex :
    (generateNewsletterClick runOkThink ⟨""⟩ "topic").2 = [] ∧
    (generateNewsletterClick runOkThink ⟨""⟩ "topic").1.newsletter_content
      = "<think>p</think>B" ∧
    containsPairStr
      (generateNewsletterClick runOkThink ⟨""⟩ "topic").1.newsletter_content = true := by
  decide

/-- C2 amended: when both chained calls succeed, the draft stored in
session state is the raw output of the enhancement call, unfiltered (the
strip happens only at export time), and no error is reported. -/
theorem generate_stores_raw_output (run : String → RunResult) (stt : SessionState)
    (topic r1 r2 : String)
    (h1 : run (NEWSLETTER_TEMPLATE topic) = RunResult.ok r1)
    (h2 : run (ENTERTAINMENT_TEMPLATE r1) = RunResult.ok r2) :
    generateNewsletterClick run stt topic = (⟨r2⟩, []) := by
  simp [generateNewsletterClick, generate_newsletter, enhance_newsletter, h1, h2]

/-- An oracle that always succeeds with the fixed text "X". -/
def runOkX : String → RunResult := fun _ => RunResult.ok "X"

theorem generate_stores_raw_witness :
    generateNewsletterClick runOkX ⟨""⟩ "topic" = (⟨"X"⟩, []) :=
  generate_stores_raw_output runOkX ⟨""⟩ "topic" "X" "X" rfl rfl

/-- An oracle that fails the generation prompt but succeeds on the
enhancement prompt built from the empty generation fallback. -/
def runGenFailEnhOk : String → RunResult := fun p =>
  if p = ENTERTAINMENT_TEMPLATE "" then RunResult.ok "SURPRISE" else RunResult.exn "down"

set_option maxRecDepth 100000 in
/-- C3 counterexample: when the generation call fails but the chained
enhancement call succeeds, the stored draft is replaced with the new text
the enhancement call returned for the empty fallback draft; it neither
remains the previous content nor reverts to empty. -/
theorem generate_failure_replaces_content_cex :
    (generateNewsletterClick runGenFailEnhOk ⟨"OLD"⟩ "topic").1.newsletter_content
      = "SURPRISE" ∧
    ("SURPRISE" : String) ≠ "OLD" ∧ ("SURPRISE" : String) ≠ "" := by
  decide

/-- C3 amended: a failure of either chained call is reported via an error
message, but the stored content is still replaced: with the enhancement of
the empty string when generation fails, with the raw generated draft when
enhancement fails, and with the empty string only when both calls fail. -/
theorem generate_failure_cases (run : String → RunResult) (stt : SessionState)
    (topic : String) :
    (∀ e1 e2, run (NEWSLETTER_TEMPLATE topic) = RunResult.exn e1 →
      run (ENTERTAINMENT_TEMPLATE "") = RunResult.exn e2 →
      generateNewsletterClick run stt topic =
        (⟨""⟩, ["Error generating newsletter: " ++ e1, "Error enhancing newsletter: " ++ e2])) ∧
    (∀ r e, run (NEWSLETTER_TEMPLATE topic) = RunResult.ok r →
      run (ENTERTAINMENT_TEMPLATE r) = RunResult.exn e →
      generateNewsletterClick run stt topic =
        (⟨r⟩, ["Error enhancing newsletter: " ++ e])) ∧
    (∀ e r, run (NEWSLETTER_TEMPLATE topic) = RunResult.exn e →
      run (ENTERTAINMENT_TEMPLATE "") = RunResult.ok r →
      generateNewsletterClick run stt topic =
        (⟨r⟩, ["Error generating newsletter: " ++ e])) := by
  refine ⟨?_, ?_, ?_⟩
  · intro e1 e2 h1 h2
    simp [generateNewsletterClick, generate_newsletter, enhance_newsletter, h1, h2]
  · intro r e h1 h2
    simp [generateNewsletterClick, generate_newsletter, enhance_newsletter, h1, h2]
  · intro e r h1 h2
    simp [generateNewsletterClick, generate_newsletter, enhance_newsletter, h1, h2]

/-- An oracle whose every call raises. -/
def runAllFail : String → RunResult := fun _ => RunResult.exn "boom"

theorem generate_failure_witness :
    generateNewsletterClick runAllFail ⟨"OLD"⟩ "topic" =
      (⟨""⟩, ["Error generating newsletter: boom", "Error enhancing newsletter: boom"]) :=
  (generate_failure_cases runAllFail ⟨"OLD"⟩ "topic").1 "boom" "boom" rfl rfl

/-- C7: on a generation failure, refine_newsletter and enhance_newsletter
both return the draft content exactly as it was before the call. -/
theorem refine_enhance_noop_on_error :
    (∀ (run : String → RunResult) (cur instr e : String),
      run (REFINEMENT_TEMPLATE cur instr) = RunResult.exn e →
      (refine_newsletter run cur instr).1 = cur) ∧
    (∀ (run : String → RunResult) (cur e : String),
      run (ENTERTAINMENT_TEMPLATE cur) = RunResult.exn e →
      (enhance_newsletter run cur).1 = cur) := by
  constructor
  · intro run cur instr e h
    simp [refine_newsletter, h]
  · intro run cur e h
    simp [enhance_newsletter, h]

theorem refine_enhance_noop_witness :
    (refine_newsletter runAllFail "current draft" "shorter please").1 = "current draft" ∧
    (enhance_newsletter runAllFail "current draft").1 = "current draft" :=
  ⟨refine_enhance_noop_on_error.1 runAllFail "current draft" "shorter please" "boom" rfl,
   refine_enhance_noop_on_error.2 runAllFail "current draft" "boom" rfl⟩

/-- The article fields app.py consumes from the news API response. -/
structure NewsArticle where
  title : String
  sourceName : String
  publishedAt : String
  description : String
  url : String

/-- How a Python f-string renders the api_key slot: the key itself, or the
literal text None when os.getenv returned None. -/
def pyShowKey : Option String → String
  | some k => k
  | none => "None"

/-- The URL built in fetch_news_articles (app.py line 126). -/
def newsApiUrl (query : String) (api_key : Option String) : String :=
  "https://newsapi.org/v2/everything?q=" ++ query
    ++ "&sortBy=publishedAt&pageSize=5&apiKey=" ++ pyShowKey api_key

/-- Result of one fetch_news_articles call: the returned articles, the URLs
actually requested over the network, and the error messages shown. -/
structure FetchOutcome where
  articles : List NewsArticle
  requestedUrls : List String
  errors : List String

/-- Embedding of fetch_news_articles (app.py lines 124-134).  The network
is the oracle httpGet; the function builds the URL (interpolating a missing
key as None), always performs the request, and maps any request exception
to an error message and an empty article list. -/
def fetch_news_articles (httpGet : String → Except String (List NewsArticle))
    (query : String) (api_key : Option String) : FetchOutcome :=
  match httpGet (newsApiUrl query api_key) with
  | Except.ok articles => ⟨articles, [newsApiUrl query api_key], []⟩
  | Except.error e =>
    ⟨[], [newsApiUrl query api_key], ["Error fetching news articles: " ++ e]⟩

/-- A network oracle on which every request fails as an unauthorized call
with a bad key would. -/
def httpAlways401 : String → Except String (List NewsArticle) :=
  fun _ => Except.error "401 Client Error"

set_option maxRecDepth 100000 in
/-- C8 counterexample: with the API key absent (None), fetch_news_articles
still issues the network request, with the literal text None interpolated
into the URL; the operation is not aborted before the call and no
configuration error is raised, only the fetch failure afterwards. -/
theorem fetch_missing_key_cex :
    (fetch_news_articles httpAlways401 "AI" none).requestedUrls =
      ["https://newsapi.org/v2/everything?q=AI&sortBy=publishedAt&pageSize=5&apiKey=None"] ∧
    (fetch_news_articles httpAlways401 "AI" none).requestedUrls ≠ [] ∧
    (fetch_news_articles httpAlways401 "AI" none).errors =
      ["Error fetching news articles: 401 Client Error"] := by
  decide

/-- C8 amended: a missing news API key does not abort the operation; the
request is made regardless, with None rendered into the apiKey parameter,
and any resulting HTTP failure is reported as a fetch error with an empty
article list. -/
theorem fetch_missing_key_requests_anyway
    (httpGet : String → Except String (List NewsArticle)) (q e : String)
    (h : httpGet (newsApiUrl q none) = Except.error e) :
    fetch_news_articles httpGet q none =
      ⟨[], [newsApiUrl q none], ["Error fetching news articles: " ++ e]⟩ := by
  simp [fetch_news_articles, h]

theorem fetch_missing_key_witness :
    fetch_news_articles httpAlways401 "AI and Data Analytics" none =
      ⟨[], [newsApiUrl "AI and Data Analytics" none],
        ["Error fetching news articles: 401 Client Error"]⟩ :=
  fetch_missing_key_requests_anyway httpAlways401 "AI and Data Analytics"
    "401 Client Error" rfl

/-- Keys of a Python dict built by insertion: first-occurrence order. -/
def dedupKeepFirst : List String → List String
  | [] => []
  | x :: xs => x :: (dedupKeepFirst xs).filter (fun y => !(y == x))

/-- Embedding of collections.Counter(sources): each distinct source in
first-occurrence order, paired with its number of occurrences. -/
def counterPairs (xs : List String) : List (String × Nat) :=
  (dedupKeepFirst xs).map (fun s => (s, xs.count s))

/-- Insert into a list sorted by descending count, before the first entry
whose count is not larger: the stable insertion step. -/
def insertDesc (p : String × Nat) : List (String × Nat) → List (String × Nat)
  | [] => [p]
  | q :: qs => if q.2 ≤ p.2 then p :: q :: qs else q :: insertDesc p qs

/-- Stable sort by descending count, as Counter.most_common sorts. -/
def sortCountDesc (l : List (String × Nat)) : List (String × Nat) :=
  l.foldr insertDesc []

/-- Embedding of Counter(sources).most_common(3). -/
def most_common3 (l : List (String × Nat)) : List (String × Nat) :=
  (sortCountDesc l).take 3

/-- Embedding of get_top_news_orgs (app.py lines 136-141). -/
def get_top_news_orgs (articles : List NewsArticle) : List (String × Nat) :=
  most_common3 (counterPairs (articles.map (fun a => a.sourceName)))

theorem insertDesc_head? (p : String × Nat) (l : List (String × Nat)) :
    (insertDesc p l).head? = some p ∨ (insertDesc p l).head? = l.head? := by
  cases l with
  | nil => exact Or.inl rfl
  | cons q qs =>
    by_cases h : q.2 ≤ p.2
    · exact Or.inl (by simp [insertDesc, h])
    · exact Or.inr (by simp [insertDesc, h])

theorem chain_insertDesc {p : String × Nat} {l : List (String × Nat)}
    (h : List.Chain' (fun a b : String × Nat => b.2 ≤ a.2) l) :
    List.Chain' (fun a b : String × Nat => b.2 ≤ a.2) (insertDesc p l) := by
  induction l with
  | nil => simp [insertDesc]
  | cons q qs ih =>
    rw [List.chain'_cons'] at h
    by_cases hq : q.2 ≤ p.2
    · rw [show insertDesc p (q :: qs) = p :: q :: qs by simp [insertDesc, hq]]
      rw [List.chain'_cons']
      refine ⟨fun y hy => ?_, List.chain'_cons'.mpr h⟩
      simp at hy
      subst hy
      exact hq
    · rw [show insertDesc p (q :: qs) = q :: insertDesc p qs by simp [insertDesc, hq]]
      rw [List.chain'_cons']
      refine ⟨fun y hy => ?_, ih h.2⟩
      rcases insertDesc_head? p qs with hh | hh
      · rw [hh] at hy
        simp at hy
        subst hy
        omega
      · rw [hh] at hy
        exact h.1 y hy

theorem chain_sortCountDesc (l : List (String × Nat)) :
    List.Chain' (fun a b : String × Nat => b.2 ≤ a.2) (sortCountDesc l) := by
  induction l with
  | nil => simp [sortCountDesc]
  | cons x xs ih => exact chain_insertDesc ih

theorem mem_insertDesc {x p : String × Nat} {l : List (String × Nat)}
    (h : x ∈ insertDesc p l) : x = p ∨ x ∈ l := by
  induction l with
  | nil => simpa [insertDesc] using h
  | cons q qs ih =>
    by_cases hq : q.2 ≤ p.2
    · rw [show insertDesc p (q :: qs) = p :: q :: qs by simp [insertDesc, hq]] at h
      simpa using h
    · rw [show insertDesc p (q :: qs) = q :: insertDesc p qs by simp [insertDesc, hq]] at h
      rcases List.mem_cons.mp h with h | h
      · exact Or.inr (by simp [h])
      · rcases ih h with h | h
        · exact Or.inl h
        · exact Or.inr (by simp [h])

theorem mem_sortCountDesc {x : String × Nat} {l : List (String × Nat)}
    (h : x ∈ sortCountDesc l) : x ∈ l := by
  induction l with
  | nil => simp [sortCountDesc] at h
  | cons q qs ih =>
    rcases mem_insertDesc h with h | h
    · simp [h]
    · exact List.mem_cons_of_mem _ (ih h)

theorem counterPairs_count {xs : List String} {p : String × Nat}
    (h : p ∈ counterPairs xs) : p.2 = xs.count p.1 := by
  unfold counterPairs at h
  rcases List.mem_map.mp h with ⟨s, _, rfl⟩
  rfl

theorem filter_insertDesc (p : String × Nat) (l : List (String × Nat)) (n : Nat) :
    (insertDesc p l).filter (fun x => x.2 == n) =
      if p.2 == n then p :: l.filter (fun x => x.2 == n)
      else l.filter (fun x => x.2 == n) := by
  induction l with
  | nil => cases hn : (p.2 == n) <;> simp [insertDesc, List.filter, hn]
  | cons q qs ih =>
    by_cases hq : q.2 ≤ p.2
    · rw [show insertDesc p (q :: qs) = p :: q :: qs by simp [insertDesc, hq]]
      cases hn : (p.2 == n) <;> simp [List.filter, hn]
    · rw [show insertDesc p (q :: qs) = q :: insertDesc p qs by simp [insertDesc, hq]]
      cases hn : (p.2 == n) with
      | false => cases hqn : (q.2 == n) <;> simp [List.filter, hqn, ih, hn]
      | true =>
        have hpn : p.2 = n := by simpa using hn
        have hqn : (q.2 == n) = false := by
          simp only [beq_eq_false_iff_ne, ne_eq]
          omega
        simp [List.filter, hqn, ih, hn]

theorem filter_sortCountDesc (l : List (String × Nat)) (n : Nat) :
    (sortCountDesc l).filter (fun x => x.2 == n) = l.filter (fun x => x.2 == n) := by
  induction l with
  | nil => rfl
  | cons q qs ih =>
    show (insertDesc q (sortCountDesc qs)).filter (fun x => x.2 == n) = _
    rw [filter_insertDesc]
    cases hn : (q.2 == n) <;> simp [List.filter, hn, ih]

/-- The news lookup stub of the end-to-end scenario: five articles whose
sources are A, A, B, C, A. -/
def exampleArticles : List NewsArticle :=
  [⟨"t1", "A", "d1", "x", "u1"⟩, ⟨"t2", "A", "d2", "x", "u2"⟩,
   ⟨"t3", "B", "d3", "x", "u3"⟩, ⟨"t4", "C", "d4", "x", "u4"⟩,
   ⟨"t5", "A", "d5", "x", "u5"⟩]

/-- C9: the top-sources ranking maps the A,A,B,C,A scenario to
(A,3),(B,1),(C,1); in general it returns at most three entries, ordered by
descending count, each entry pairing a source with its occurrence count,
and entries of equal count appear in first-encountered order (the sort
preserves the first-occurrence order of Counter within each count class). -/
theorem get_top_news_orgs_spec :
    get_top_news_orgs exampleArticles = [("A", 3), ("B", 1), ("C", 1)] ∧
    (∀ arts : List NewsArticle, (get_top_news_orgs arts).length ≤ 3) ∧
    (∀ arts : List NewsArticle,
      List.Chain' (fun a b : String × Nat => b.2 ≤ a.2) (get_top_news_orgs arts)) ∧
    (∀ (arts : List NewsArticle) (p : String × Nat), p ∈ get_top_news_orgs arts →
      p.2 = (arts.map (fun a => a.sourceName)).count p.1) ∧
    (∀ (arts : List NewsArticle) (n : Nat),
      (sortCountDesc (counterPairs (arts.map (fun a => a.sourceName)))).filter
          (fun x => x.2 == n) =
        (counterPairs (arts.map (fun a => a.sourceName))).filter (fun x => x.2 == n)) := by
  refine ⟨by decide, ?_, ?_, ?_, ?_⟩
  · intro arts
    simp only [get_top_news_orgs, most_common3, List.length_take]
    exact Nat.min_le_left 3 _
  · intro arts
    exact (chain_sortCountDesc _).take 3
  · intro arts p hp
    have hmem : p ∈ sortCountDesc (counterPairs (arts.map (fun a => a.sourceName))) :=
      List.mem_of_mem_take hp
    exact counterPairs_count (mem_sortCountDesc hmem)
  · intro arts n
    exact filter_sortCountDesc _ n

theorem get_top_news_orgs_witness :
    ((("A", 3) : String × Nat)).2 =
      (exampleArticles.map (fun a => a.sourceName)).count "A" :=
  get_top_news_orgs_spec.2.2.2.1 exampleArticles ("A", 3) (by decide)

theorem stringDataAppend (a b : String) : (a ++ b).data = a.data ++ b.data := by
  cases a
  cases b
  rfl

theorem startsWithL_sep {pat : List Char} {ch : Char}
    (hch : pat.all (fun a => a != ch) = true) :
    ∀ {u v : List Char}, startsWithL pat (u ++ ch :: v) = true →
      startsWithL pat u = true := by
  induction pat with
  | nil => intro u v _; rfl
  | cons p ps ih =>
    intro u v h
    cases u with
    | nil =>
      simp only [List.nil_append, startsWithL, Bool.and_eq_true, beq_iff_eq] at h
      simp only [List.all_cons, Bool.and_eq_true, bne_iff_ne, ne_eq] at hch
      exact absurd h.1 hch.1
    | cons x xs =>
      simp only [List.cons_append, startsWithL, Bool.and_eq_true, beq_iff_eq] at h
      simp only [List.all_cons, Bool.and_eq_true] at hch
      simp only [startsWithL, Bool.and_eq_true, beq_iff_eq]
      exact ⟨h.1, ih hch.2 h.2⟩

theorem containsSub_sep {pat : List Char} (hne : pat ≠ []) {ch : Char}
    (hch : pat.all (fun a => a != ch) = true) :
    ∀ (a b : List Char), containsSub pat a = false → containsSub pat b = false →
      containsSub pat (a ++ ch :: b) = false := by
  intro a
  induction a with
  | nil =>
    intro b _ hb
    rw [List.nil_append, containsSub_cons, hb, Bool.or_false]
    cases hs : startsWithL pat (ch :: b) with
    | false => rfl
    | true =>
      have hnilsw : startsWithL pat [] = true :=
        startsWithL_sep hch (u := []) (v := b) (by simpa using hs)
      cases pat with
      | nil => exact absurd rfl hne
      | cons p ps => simp [startsWithL] at hnilsw
  | cons x xs ih =>
    intro b ha hb
    rw [containsSub_cons, Bool.or_eq_false_iff] at ha
    rw [List.cons_append, containsSub_cons, ih b ha.2 hb, Bool.or_false]
    cases hs : startsWithL pat (x :: (xs ++ ch :: b)) with
    | false => rfl
    | true =>
      have hsw : startsWithL pat (x :: xs) = true :=
        startsWithL_sep hch (u := x :: xs) (v := b) (by simpa using hs)
      rw [hsw] at ha
      simpa using ha.1

set_option maxRecDepth 400000 in
/-- C4 counterexample: exporting the content xBad re-applies the filter,
yet the filtered text is exactly a reassembled tag pair, so the exported
document still contains an occurrence of the marker pair. -/
theorem export_contains_pair_cex :
    containsPairStr (create_markdown "January 01, 2026" xBad) = true := by
  decide

/-- C4 amended: export re-applies the filter and prepends the fixed
title/timestamp header, but the filter does not guarantee absence of the
marker pair (see the counterexample); the exported document is free of the
pair whenever the filtered content and the date string contain no start
tag. -/
theorem export_no_pair_of_clean (d c : String)
    (hd : containsSub tOpen d.data = false)
    (hc : containsSub tOpen (remove_think_content c).data = false) :
    containsPairStr (create_markdown d c) = false := by
  have hne : tOpen ≠ [] := by decide
  have hsp : tOpen.all (fun a => a != ' ') = true := by decide
  have hst : tOpen.all (fun a => a != '*') = true := by decide
  have hnl : tOpen.all (fun a => a != '\n') = true := by decide
  have hnil : containsSub tOpen [] = false := by decide
  have h1 : containsSub tOpen ('\n' :: (remove_think_content c).data) = false := by
    simpa using containsSub_sep hne hnl [] (remove_think_content c).data hnil hc
  have h2 : containsSub tOpen ('\n' :: '\n' :: (remove_think_content c).data) = false := by
    simpa using containsSub_sep hne hnl [] ('\n' :: (remove_think_content c).data) hnil h1
  have h3 : containsSub tOpen
      ('*' :: '\n' :: '\n' :: (remove_think_content c).data) = false := by
    simpa using containsSub_sep hne hst []
      ('\n' :: '\n' :: (remove_think_content c).data) hnil h2
  have h5 : containsSub tOpen
      (d.data ++ '*' :: '*' :: '\n' :: '\n' :: (remove_think_content c).data) = false :=
    containsSub_sep hne hst d.data
      ('*' :: '\n' :: '\n' :: (remove_think_content c).data) hd h3
  have hHead : containsSub tOpen
      ("# AI & Data Analytics Newsletter\n\n**Generated on" : String).data = false := by
    decide
  have h6 : containsSub tOpen
      (("# AI & Data Analytics Newsletter\n\n**Generated on" : String).data
        ++ ' ' :: (d.data ++ '*' :: '*' :: '\n' :: '\n' :: (remove_think_content c).data))
      = false :=
    containsSub_sep hne hsp _ _ hHead h5
  have hAB : ("# AI & Data Analytics Newsletter\n\n" : String).data
      ++ ("**Generated on " : String).data
      = ("# AI & Data Analytics Newsletter\n\n**Generated on" : String).data ++ [' '] := by
    decide
  have hC : ("**\n\n" : String).data = ['*', '*', '\n', '\n'] := by decide
  have hdata : (create_markdown d c).data =
      ("# AI & Data Analytics Newsletter\n\n**Generated on" : String).data
        ++ ' ' :: (d.data ++ '*' :: '*' :: '\n' :: '\n' :: (remove_think_content c).data) := by
    show (("# AI & Data Analytics Newsletter\n\n" : String) ++ "**Generated on " ++ d
        ++ "**\n\n" ++ remove_think_content c).data = _
    simp only [stringDataAppend, hC, List.append_assoc, ← hAB]
    simp
  unfold containsPairStr
  rw [hdata, findMatch?_none_of_no_open h6]
  rfl

set_option maxRecDepth 100000 in
theorem export_no_pair_witness :
    containsPairStr (create_markdown "January 01, 2026" "hello<think>secret</think>") = false :=
  export_no_pair_of_clean "January 01, 2026" "hello<think>secret</think>"
    (by decide) (by decide)
